import Mathlib

/-!
Verification of the mini-git object model and staging index.

This file is a shallow embedding of `src/main.rs`.  Byte strings are
modelled as `List Nat` (each element a byte value).  The SHA-1 digest
(`hash_content`) and the zlib codec (`compress_content` /
`decompress_content`) are calls into external crates, so they appear as
function parameters `h`, `comp` and `decomp` throughout; every statement
below holds for an arbitrary choice of those functions.  Paths are
modelled as the raw bytes of the single-component file names passed to
`update-index --add`, for which `PathBuf` ordering and
`Path::to_string_lossy` coincide with the raw bytes.
-/

namespace MiniGit

/-- Byte values of a string literal (ASCII / Unicode code points), modelling
Rust `str::as_bytes` on ASCII text. -/
def strBytes (s : String) : List Nat := s.toList.map Char.toNat

/-- Fuel-indexed decimal printer; the fuel only bounds the number of digits. -/
def decimalBytesAux : Nat → Nat → List Nat
  | 0, _ => []
  | fuel + 1, n =>
    if n < 10 then [48 + n] else decimalBytesAux fuel (n / 10) ++ [48 + n % 10]

/-- Decimal ASCII rendering of an unsigned integer, modelling Rust
`format` / `to_string` on `usize` and `u32` values. -/
def decimalBytes (n : Nat) : List Nat := decimalBytesAux (n + 1) n

/-- Lowercase hex digit for a value below 16, as produced by `hex::encode`. -/
def hexDigitByte (n : Nat) : Nat := if n < 10 then 48 + n else 87 + n

/-- Lowercase hex encoding of a byte string, modelling `hex::encode`. -/
def hexEncode (bytes : List Nat) : List Nat :=
  (bytes.map (fun b => [hexDigitByte (b / 16), hexDigitByte (b % 16)])).flatten

/-- Test for an ASCII hex digit, modelling `char::is_ascii_hexdigit`
(`src/main.rs:592`): `0-9`, `a-f` or `A-F`. -/
def isHexDigitByte (b : Nat) : Bool :=
  (48 ≤ b && b ≤ 57) || (97 ≤ b && b ≤ 102) || (65 ≤ b && b ≤ 70)

/-- UTF-8 continuation byte (`0x80`-`0xBF`). -/
def isCont (c : Nat) : Bool := 128 ≤ c && c ≤ 191

/-- Fuel-indexed UTF-8 validity check; every step consumes at least one byte
and one unit of fuel, so fuel equal to the list length always suffices and
the fuel-exhaustion branch is unreachable from `utf8Valid`. -/
def utf8ValidAux : Nat → List Nat → Bool
  | _, [] => true
  | 0, _ :: _ => false
  | fuel + 1, b :: l =>
    if b ≤ 127 then utf8ValidAux fuel l
    else if 194 ≤ b && b ≤ 223 then
      match l with
      | c1 :: l1 => isCont c1 && utf8ValidAux fuel l1
      | [] => false
    else if (b = 224 || (225 ≤ b && b ≤ 236) || b = 237 || b = 238 || b = 239) then
      match l with
      | c1 :: c2 :: l2 =>
        (if b = 224 then 160 ≤ c1 && c1 ≤ 191
         else if b = 237 then 128 ≤ c1 && c1 ≤ 159
         else isCont c1) && isCont c2 && utf8ValidAux fuel l2
      | _ => false
    else if (b = 240 || (241 ≤ b && b ≤ 243) || b = 244) then
      match l with
      | c1 :: c2 :: c3 :: l3 =>
        (if b = 240 then 144 ≤ c1 && c1 ≤ 191
         else if b = 244 then 128 ≤ c1 && c1 ≤ 143
         else isCont c1) && isCont c2 && isCont c3 && utf8ValidAux fuel l3
      | _ => false
    else false

/-- UTF-8 validity of a byte string, modelling the success condition of
Rust `str::from_utf8` / `String::from_utf8`. -/
def utf8Valid (l : List Nat) : Bool := utf8ValidAux l.length l

/-- Models `struct IndexEntry { mode: u32, sha1: [u8; 20], path: PathBuf }`
(`src/main.rs:468-473`).  The digest and path are byte lists. -/
structure IndexEntry where
  mode : Nat
  sha1 : List Nat
  path : List Nat
deriving DecidableEq

/-- Canonical blob layout built by `BlobObject::new` (`src/main.rs:22-30`):
the header `format ("blob {}\0", len)` followed by the raw content bytes. -/
def blobFullContent (raw : List Nat) : List Nat :=
  strBytes "blob " ++ decimalBytes raw.length ++ [0] ++ raw

/-- Models `struct BlobObject` (`src/main.rs:15-19`). -/
structure BlobObject where
  hash : List Nat
  compressed_content : List Nat
  raw_content : List Nat
deriving DecidableEq

/-- Models `BlobObject::new` (`src/main.rs:22-39`): the digest and the
compressed bytes are both computed over the full header+body layout. -/
def BlobObject.new (h comp : List Nat → List Nat) (raw : List Nat) : BlobObject :=
  { hash := h (blobFullContent raw)
    compressed_content := comp (blobFullContent raw)
    raw_content := raw }

/-- Byte rendering of one tree entry, the loop body of `TreeObject::new`
(`src/main.rs:52-59`): decimal mode, one space, path bytes, one NUL, then
the raw digest bytes. -/
def treeEntryBytes (e : IndexEntry) : List Nat :=
  decimalBytes e.mode ++ [32] ++ e.path ++ [0] ++ e.sha1

/-- Entry body of a tree object: the concatenation of the entry renderings
in the order the entries were given. -/
def treeBody (entries : List IndexEntry) : List Nat :=
  (entries.map treeEntryBytes).flatten

/-- Canonical tree layout built by `TreeObject::new` (`src/main.rs:61-63`):
the header `format ("tree {}\0", body.len)` followed by the entry body. -/
def treeFullContent (entries : List IndexEntry) : List Nat :=
  strBytes "tree " ++ decimalBytes (treeBody entries).length ++ [0] ++ treeBody entries

/-- Models `struct TreeObject` (`src/main.rs:42-46`); `raw_content` holds
the entry body without the header, as in the source. -/
structure TreeObject where
  hash : List Nat
  compressed_content : List Nat
  raw_content : List Nat
deriving DecidableEq

/-- Models `TreeObject::new` (`src/main.rs:49-73`). -/
def TreeObject.new (h comp : List Nat → List Nat) (entries : List IndexEntry) : TreeObject :=
  { hash := h (treeFullContent entries)
    compressed_content := comp (treeFullContent entries)
    raw_content := treeBody entries }

/-- Models `struct CommitObject` (`src/main.rs:76-80`). -/
structure CommitObject where
  hash : List Nat
  compressed_content : List Nat
  raw_content : List Nat
deriving DecidableEq

/-- Two-digit zero-padded decimal, modelling a Rust width-2 zero-padded
format of an unsigned value. -/
def pad2Bytes (n : Nat) : List Nat := if n < 10 then [48, 48 + n] else decimalBytes n

/-- Decimal rendering of a signed integer, modelling `i64` display. -/
def intDecimalBytes (i : Int) : List Nat :=
  if i < 0 then 45 :: decimalBytes i.natAbs else decimalBytes i.toNat

/-- Timezone text built by `CommitObject::new` (`src/main.rs:94-98`): sign of
the offset, then zero-padded hours and minutes of its absolute value. -/
def timezoneBytes (offsetSecs : Int) : List Nat :=
  (if 0 ≤ offsetSecs then [43] else [45])
    ++ pad2Bytes (offsetSecs.natAbs / 3600)
    ++ pad2Bytes (offsetSecs.natAbs % 3600 / 60)

/-- Commit metadata text built by `CommitObject::new` (`src/main.rs:100-121`):
tree line, optional parent line, author and committer lines, blank line. -/
def commitMetadata (treeHash : List Nat) (parent : Option (List Nat))
    (ts offsetSecs : Int) : List Nat :=
  strBytes "tree " ++ treeHash ++ [10]
    ++ (match parent with
        | some p => strBytes "parent " ++ hexEncode p ++ [10]
        | none => [])
    ++ strBytes "author Francis Eugene Casibu <email@example.com> "
    ++ intDecimalBytes ts ++ [32] ++ timezoneBytes offsetSecs ++ [10]
    ++ strBytes "committer Francis Eugene Casibu <email@example.com> "
    ++ intDecimalBytes ts ++ [32] ++ timezoneBytes offsetSecs ++ [10, 10]

/-- Commit body: metadata followed by the message (`src/main.rs:123-124`). -/
def commitBody (msg treeHash : List Nat) (parent : Option (List Nat))
    (ts offsetSecs : Int) : List Nat :=
  commitMetadata treeHash parent ts offsetSecs ++ msg

/-- Canonical commit layout (`src/main.rs:126-129`): header
`format ("commit {}\0", body.len)` followed by the body. -/
def commitFullContent (msg treeHash : List Nat) (parent : Option (List Nat))
    (ts offsetSecs : Int) : List Nat :=
  strBytes "commit " ++ decimalBytes (commitBody msg treeHash parent ts offsetSecs).length
    ++ [0] ++ commitBody msg treeHash parent ts offsetSecs

/-- Models `enum GitObjects` (`src/main.rs:143-147`). -/
inductive GitObjects where
  | blob (b : BlobObject)
  | tree (t : TreeObject)
  | commit (c : CommitObject)
deriving DecidableEq

/-- Error outcomes of the repository operations, one constructor per
distinct failure site in the source:
`notARepo` for the "not a mini-git repository" checks,
`invalidAddress` for the length check in `get_object_path` (`src/main.rs:459-461`),
`objectNotFound` for "object does not exist" (`src/main.rs:370-372`),
`decompressError` for a failing `decompress_content`,
`utf8Error` for a failing `str::from_utf8` / `String::from_utf8`,
`unknownObjectType` for "Object type not yet implemented" (`src/main.rs:404-407`),
`truncatedSha` for "Malformed tree object: SHA-1 truncated" (`src/main.rs:642-644`),
`invalidTreeReference` / `invalidParentReference` for the `commit_tree`
reference checks (`src/main.rs:437-447`), and
`panic` for a Rust panic (an `unwrap` on `None` or an out-of-bounds index). -/
inductive GitError where
  | notARepo
  | invalidAddress
  | objectNotFound
  | decompressError
  | utf8Error
  | unknownObjectType
  | truncatedSha
  | invalidTreeReference
  | invalidParentReference
  | panic
deriving DecidableEq

/-- Sort key of an index entry.  Rust derives `Ord` on `IndexEntry`
(`src/main.rs:468`), which compares fields lexicographically in declaration
order: `mode`, then `sha1` (bytewise), then `path`. -/
def IndexEntry.key (e : IndexEntry) : Lex (Nat × Lex (List Nat × List Nat)) :=
  toLex (e.mode, toLex (e.sha1, e.path))

/-- The derived total order on index entries. -/
def entryLE (a b : IndexEntry) : Prop := a.key ≤ b.key

instance : DecidableRel entryLE := fun a b => inferInstanceAs (Decidable (a.key ≤ b.key))

instance : IsTotal IndexEntry entryLE := ⟨fun a b => le_total a.key b.key⟩

instance : IsTrans IndexEntry entryLE := ⟨fun _ _ _ hab hbc => le_trans hab hbc⟩

/-- Models `index.entries.iter().position(|e| e.path == file_path_buf)`
followed by the conditional in-place replacement at that position
(`src/main.rs:307-314`): the first entry whose path equals `path` is
replaced by `⟨100644, sha1, path⟩` exactly when its stored digest differs
from `sha1`; the result is `none` when no entry has that path (the
`position` call returned `None`). -/
def replaceFirst (path sha1 : List Nat) : List IndexEntry → Option (List IndexEntry)
  | [] => none
  | e :: rest =>
    if e.path = path then
      some (if e.sha1 ≠ sha1 then ⟨100644, sha1, path⟩ :: rest else e :: rest)
    else
      (replaceFirst path sha1 rest).map (fun rest2 => e :: rest2)

/-- Models the index mutation of `Repository::add_to_index`
(`src/main.rs:305-323`): replace-or-append the entry for `path`, then
`index.entries.sort()`.  Rust `Vec::sort` is a stable sort by the derived
`Ord`; since the key `(mode, sha1, path)` determines the whole entry, the
sorted permutation is unique and `insertionSort` computes the same list. -/
def addToIndex (entries : List IndexEntry) (path sha1 : List Nat) : List IndexEntry :=
  let updated :=
    match replaceFirst path sha1 entries with
    | some l => l
    | none => entries ++ [⟨100644, sha1, path⟩]
  List.insertionSort entryLE updated

/-- Index contents after a sequence of staging operations starting from the
empty index; each operation is the pair (path bytes, blob digest) that
`add_to_index` computes for the staged file. -/
def stageList (ops : List (List Nat × List Nat)) : List IndexEntry :=
  ops.foldl (fun es op => addToIndex es op.1 op.2) []

/-- Paths of an index, in entry order. -/
abbrev indexPaths (entries : List IndexEntry) : List (List Nat) :=
  entries.map IndexEntry.path

/-- Abstract object store: maps a 40-character address (the hex digest,
which determines the sharded path `objects/xy/rest` injectively) to the
compressed bytes stored there, if any. -/
def Store : Type := List Nat → Option (List Nat)

/-- Store after `fs::write` of `bytes` at `addr` (`src/main.rs:279-281`). -/
def storeInsert (store : Store) (addr bytes : List Nat) : Store :=
  fun a => if a = addr then some bytes else store a

/-- Models the header parse and dispatch of `Repository::read_object` on the
decompressed buffer (`src/main.rs:380-408`).  The source calls
`position(..).unwrap()` for the first space and the first NUL, so a buffer
lacking either byte panics (`GitError.panic`); the type tag is the bytes
before the first space, converted by `str::from_utf8`, and the content is
the bytes after the first NUL. -/
def parseObject (h comp : List Nat → List Nat) (index : List IndexEntry)
    (compressed d : List Nat) : Except GitError GitObjects :=
  match d.findIdx? (fun b => b == 32) with
  | none => .error .panic
  | some sp =>
    match d.findIdx? (fun b => b == 0) with
    | none => .error .panic
    | some nl =>
      let objectType := d.take sp
      let content := d.drop (nl + 1)
      if utf8Valid objectType then
        if objectType = strBytes "blob" then
          if utf8Valid content then .ok (.blob (BlobObject.new h comp content))
          else .error .utf8Error
        else if objectType = strBytes "tree" then
          .ok (.tree (TreeObject.new h comp index))
        else if objectType = strBytes "commit" then
          .ok (.commit ⟨h d, compressed, content⟩)
        else .error .unknownObjectType
      else .error .utf8Error

/-- Models `Repository::read_object` (`src/main.rs:359-409`): repository
check, address length check from `get_object_path`, existence check, read,
decompress (`decomp`, the zlib inverse, `none` on corrupt input), parse.
The tree arm rebuilds the tree from the current `index`, not from the
stored payload. -/
def read_object (h comp : List Nat → List Nat) (decomp : List Nat → Option (List Nat))
    (index : List IndexEntry) (store : Store) (repoInit : Bool)
    (addr : List Nat) : Except GitError GitObjects :=
  if ¬ repoInit then .error .notARepo
  else if addr.length ≠ 40 then .error .invalidAddress
  else
    match store addr with
    | none => .error .objectNotFound
    | some compressed =>
      match decomp compressed with
      | none => .error .decompressError
      | some d => parseObject h comp index compressed d

/-- Models `Repository::commit_tree` (`src/main.rs:423-454`): repository
check, tree-reference check, parent-reference check, then the
`write_object` of the commit built by `CommitObject::new` at timestamp `ts`
with UTC offset `offsetSecs`.  The returned store is the store after the
call; every error branch returns it unchanged, mirroring the early
returns that precede the `fs::write`. -/
def commit_tree (h comp : List Nat → List Nat) (store : Store) (repoInit : Bool)
    (msg treeHash : List Nat) (parentHash : Option (List Nat))
    (ts offsetSecs : Int) : Except GitError (List Nat) × Store :=
  if ¬ repoInit then (.error .notARepo, store)
  else if treeHash.length ≠ 40 then (.error .invalidAddress, store)
  else if (store treeHash).isNone then (.error .invalidTreeReference, store)
  else
    match parentHash with
    | some p =>
      if (hexEncode p).length ≠ 40 then (.error .invalidAddress, store)
      else if (store (hexEncode p)).isNone then (.error .invalidParentReference, store)
      else
        let full := commitFullContent msg treeHash (some p) ts offsetSecs
        (.ok (hexEncode (h full)), storeInsert store (hexEncode (h full)) (comp full))
    | none =>
      let full := commitFullContent msg treeHash none ts offsetSecs
      (.ok (hexEncode (h full)), storeInsert store (hexEncode (h full)) (comp full))

/-- Splits a byte string at the first occurrence of `b`, dropping that
byte; `none` when `b` is absent.  Models the scans
`while raw[i] != b' '` / `while raw[i] != 0` of
`handle_cat_file_command` (`src/main.rs:629-640`): when the wanted byte is
absent the Rust loop indexes past the end of the slice and panics, which
corresponds to the `none` result. -/
def splitAtByte (b : Nat) : List Nat → Option (List Nat × List Nat)
  | [] => none
  | c :: rest =>
    if c = b then some ([], rest)
    else (splitAtByte b rest).map (fun pr => (c :: pr.1, pr.2))

/-- Fuel-indexed tree-entry walker of `handle_cat_file_command`
(`src/main.rs:625-649`): each loop iteration reads the decimal mode up to a
space, the path up to a NUL (panicking when the byte is absent), checks
that at least 20 bytes remain for the digest (error `truncatedSha`
otherwise) and consumes them.  Every iteration consumes at least one byte,
so fuel equal to the buffer length suffices and the fuel-exhaustion branch
is unreachable from `catTreeEntries`. -/
def catTreeEntriesAux : Nat → List Nat → Except GitError (List (List Nat × List Nat × List Nat))
  | _, [] => .ok []
  | 0, _ :: _ => .error .panic
  | fuel + 1, x :: raw' =>
    match splitAtByte 32 (x :: raw') with
    | none => .error .panic
    | some (modeB, rest1) =>
      if utf8Valid modeB then
        match splitAtByte 0 rest1 with
        | none => .error .panic
        | some (pathB, rest2) =>
          if utf8Valid pathB then
            if rest2.length < 20 then .error .truncatedSha
            else
              match catTreeEntriesAux fuel (rest2.drop 20) with
              | .ok es => .ok ((modeB, pathB, rest2.take 20) :: es)
              | .error e => .error e
          else .error .utf8Error
      else .error .utf8Error

/-- Tree-entry walker at adequate fuel. -/
def catTreeEntries (raw : List Nat) : Except GitError (List (List Nat × List Nat × List Nat)) :=
  catTreeEntriesAux raw.length raw

/-- Trivial stand-ins for the digest and compression parameters, used to
evaluate the model at concrete inputs. -/
def hZero : List Nat → List Nat := fun _ => []

/-- Identity compression stand-in. -/
def compZero : List Nat → List Nat := fun x => x

/-- Identity decompression stand-in. -/
def decompId : List Nat → Option (List Nat) := fun x => some x

/-- The store with no objects. -/
def emptyStore : Store := fun _ => none

/-- Fixture: compressed-and-stored bytes whose (identity-) decompressed form
declares type "tree" with an empty body. -/
def treePayload : List Nat := strBytes "tree 0" ++ [0]

/-- Fixture address: forty times the letter a. -/
def addrA : List Nat := List.replicate 40 97

/-- Fixture store holding `treePayload` at `addrA`. -/
def storeWithTree : Store := storeInsert emptyStore addrA treePayload

/-- Fixture 20-byte digests. -/
def shaOne : List Nat := List.replicate 20 1

/-- Second fixture digest, lexicographically above `shaOne`. -/
def shaTwo : List Nat := List.replicate 20 2

/-! Lemmas about the staging index -/

theorem replaceFirst_eq_none {p s : List Nat} :
    ∀ {l : List IndexEntry}, replaceFirst p s l = none ↔ ∀ e ∈ l, e.path ≠ p := by
  intro l
  induction l with
  | nil => simp [replaceFirst]
  | cons e rest ih =>
    by_cases hp : e.path = p
    · simp [replaceFirst, hp]
    · simp [replaceFirst, hp, Option.map_eq_none', ih]

theorem replaceFirst_paths {p s : List Nat} :
    ∀ {l l2 : List IndexEntry}, replaceFirst p s l = some l2 →
      l2.map IndexEntry.path = l.map IndexEntry.path := by
  intro l
  induction l with
  | nil => intro l2 h; simp [replaceFirst] at h
  | cons e rest ih =>
    intro l2 h
    by_cases hp : e.path = p
    · rw [replaceFirst, if_pos hp] at h
      by_cases hs : e.sha1 ≠ s
      · rw [if_pos hs] at h
        cases Option.some.inj h
        simp [hp]
      · rw [if_neg hs] at h
        cases Option.some.inj h
        rfl
    · rw [replaceFirst, if_neg hp] at h
      rcases Option.map_eq_some'.mp h with ⟨r2, hr2, rfl⟩
      have h2 := ih hr2
      simp only [List.map_cons]
      rw [h2]


theorem replaceFirst_mem {p s : List Nat} :
    ∀ {l l2 : List IndexEntry}, replaceFirst p s l = some l2 →
      ∀ e ∈ l2, e ∈ l ∨ e = ⟨100644, s, p⟩ := by
  intro l
  induction l with
  | nil => intro l2 h; simp [replaceFirst] at h
  | cons a rest ih =>
    intro l2 h
    by_cases hp : a.path = p
    · rw [replaceFirst, if_pos hp] at h
      by_cases hs : a.sha1 ≠ s
      · rw [if_pos hs] at h
        cases Option.some.inj h
        intro e he
        rcases List.mem_cons.mp he with rfl | he'
        · right; rfl
        · left; exact List.mem_cons_of_mem _ he'
      · rw [if_neg hs] at h
        cases Option.some.inj h
        intro e he; left; exact he
    · rw [replaceFirst, if_neg hp] at h
      rcases Option.map_eq_some'.mp h with ⟨r2, hr2, rfl⟩
      intro e he
      rcases List.mem_cons.mp he with rfl | he'
      · left; exact List.mem_cons_self _ _
      · rcases ih hr2 e he' with h1 | h1
        · left; exact List.mem_cons_of_mem _ h1
        · right; exact h1

theorem replaceFirst_sha {p s : List Nat} :
    ∀ {l l2 : List IndexEntry}, (l.map IndexEntry.path).Nodup → replaceFirst p s l = some l2 →
      (∃ e ∈ l2, e.path = p) ∧ ∀ e ∈ l2, e.path = p → e.sha1 = s := by
  intro l
  induction l with
  | nil => intro l2 _ h; simp [replaceFirst] at h
  | cons a rest ih =>
    intro l2 hnd h
    have hnd2 : a.path ∉ rest.map IndexEntry.path ∧ (rest.map IndexEntry.path).Nodup :=
      List.nodup_cons.mp (by simpa using hnd)
    by_cases hp : a.path = p
    · have hrest : ∀ e ∈ rest, e.path ≠ p := by
        intro e he hep
        exact hnd2.1 (by rw [hp, ← hep]; exact List.mem_map_of_mem IndexEntry.path he)
      by_cases hs : a.sha1 ≠ s
      · rw [replaceFirst, if_pos hp, if_pos hs] at h
        cases Option.some.inj h
        refine ⟨⟨⟨100644, s, p⟩, List.mem_cons_self _ _, rfl⟩, ?_⟩
        intro e he hep
        rcases List.mem_cons.mp he with rfl | he'
        · rfl
        · exact absurd hep (hrest e he')
      · rw [replaceFirst, if_pos hp, if_neg hs] at h
        cases Option.some.inj h
        push_neg at hs
        refine ⟨⟨a, List.mem_cons_self _ _, hp⟩, ?_⟩
        intro e he hep
        rcases List.mem_cons.mp he with rfl | he'
        · exact hs
        · exact absurd hep (hrest e he')
    · rw [replaceFirst, if_neg hp] at h
      rcases Option.map_eq_some'.mp h with ⟨r2, hr2, rfl⟩
      obtain ⟨⟨e0, he0, he0p⟩, hall⟩ := ih hnd2.2 hr2
      refine ⟨⟨e0, List.mem_cons_of_mem _ he0, he0p⟩, ?_⟩
      intro e he hep
      rcases List.mem_cons.mp he with rfl | he'
      · exact absurd hep hp
      · exact hall e he' hep

theorem replaceFirst_self {p s : List Nat} :
    ∀ {l : List IndexEntry}, (∃ e ∈ l, e.path = p) → (∀ e ∈ l, e.path = p → e.sha1 = s) →
      replaceFirst p s l = some l := by
  intro l
  induction l with
  | nil => intro h _; simp at h
  | cons a rest ih =>
    intro hex hall
    by_cases hp : a.path = p
    · have hs : a.sha1 = s := hall a (List.mem_cons_self _ _) hp
      rw [replaceFirst, if_pos hp, if_neg (by simp [hs])]
    · obtain ⟨e0, he0, he0p⟩ := hex
      rcases List.mem_cons.mp he0 with rfl | he0'
      · exact absurd he0p hp
      · have hrec := ih ⟨e0, he0', he0p⟩ (fun e he hep => hall e (List.mem_cons_of_mem _ he) hep)
        rw [replaceFirst, if_neg hp, hrec]
        rfl

theorem addToIndex_eq_some {es l : List IndexEntry} {p s : List Nat}
    (hr : replaceFirst p s es = some l) :
    addToIndex es p s = List.insertionSort entryLE l := by
  simp only [addToIndex, hr]

theorem addToIndex_eq_none {es : List IndexEntry} {p s : List Nat}
    (hr : replaceFirst p s es = none) :
    addToIndex es p s = List.insertionSort entryLE (es ++ [⟨100644, s, p⟩]) := by
  simp only [addToIndex, hr]

theorem addToIndex_mem {es : List IndexEntry} {p s : List Nat} :
    ∀ e ∈ addToIndex es p s, e ∈ es ∨ e = ⟨100644, s, p⟩ := by
  intro e he
  cases hr : replaceFirst p s es with
  | some l =>
    rw [addToIndex_eq_some hr] at he
    exact replaceFirst_mem hr e ((List.perm_insertionSort entryLE l).mem_iff.mp he)
  | none =>
    rw [addToIndex_eq_none hr] at he
    rcases List.mem_append.mp ((List.perm_insertionSort entryLE _).mem_iff.mp he) with h1 | h1
    · exact Or.inl h1
    · exact Or.inr (List.mem_singleton.mp h1)

theorem addToIndex_sorted (es : List IndexEntry) (p s : List Nat) :
    List.Sorted entryLE (addToIndex es p s) := by
  cases hr : replaceFirst p s es with
  | some l => rw [addToIndex_eq_some hr]; exact List.sorted_insertionSort entryLE l
  | none => rw [addToIndex_eq_none hr]; exact List.sorted_insertionSort entryLE _

theorem addToIndex_pathsNodup {es : List IndexEntry} {p s : List Nat}
    (hnd : (es.map IndexEntry.path).Nodup) :
    ((addToIndex es p s).map IndexEntry.path).Nodup := by
  cases hr : replaceFirst p s es with
  | some l =>
    rw [addToIndex_eq_some hr]
    exact ((List.perm_insertionSort entryLE l).map IndexEntry.path).nodup_iff.mpr
      (replaceFirst_paths hr ▸ hnd)
  | none =>
    rw [addToIndex_eq_none hr]
    refine ((List.perm_insertionSort entryLE _).map IndexEntry.path).nodup_iff.mpr ?_
    have hnp : ∀ e ∈ es, e.path ≠ p := replaceFirst_eq_none.mp hr
    have heq : List.map IndexEntry.path (es ++ [(⟨100644, s, p⟩ : IndexEntry)])
        = List.map IndexEntry.path es ++ [p] := by simp
    rw [heq]
    refine List.nodup_append.mpr ⟨hnd, List.nodup_singleton p, ?_⟩
    intro q hq hq1
    rw [List.mem_singleton.mp hq1] at hq
    obtain ⟨e, he, hep⟩ := List.mem_map.mp hq
    exact hnp e he hep

theorem addToIndex_mode {es : List IndexEntry} {p s : List Nat}
    (hm : ∀ e ∈ es, e.mode = 100644) : ∀ e ∈ addToIndex es p s, e.mode = 100644 := by
  intro e he
  rcases addToIndex_mem e he with h1 | h1
  · exact hm e h1
  · rw [h1]

theorem addToIndex_path_present {es : List IndexEntry} (p s : List Nat)
    (hnd : (es.map IndexEntry.path).Nodup) :
    (∃ e ∈ addToIndex es p s, e.path = p)
      ∧ ∀ e ∈ addToIndex es p s, e.path = p → e.sha1 = s := by
  cases hr : replaceFirst p s es with
  | some l =>
    rw [addToIndex_eq_some hr]
    obtain ⟨⟨e0, he0, he0p⟩, hall⟩ := replaceFirst_sha hnd hr
    exact ⟨⟨e0, ((List.perm_insertionSort entryLE l).mem_iff).mpr he0, he0p⟩,
      fun e he hep => hall e (((List.perm_insertionSort entryLE l).mem_iff).mp he) hep⟩
  | none =>
    rw [addToIndex_eq_none hr]
    have hnp : ∀ e ∈ es, e.path ≠ p := replaceFirst_eq_none.mp hr
    constructor
    · exact ⟨⟨100644, s, p⟩,
        ((List.perm_insertionSort entryLE _).mem_iff).mpr
          (List.mem_append_right _ (List.mem_singleton_self _)), rfl⟩
    · intro e he hep
      rcases List.mem_append.mp (((List.perm_insertionSort entryLE _).mem_iff).mp he) with h1 | h1
      · exact absurd hep (hnp e h1)
      · rw [List.mem_singleton.mp h1]

/-- Invariant carried through a fold of staging operations. -/
theorem stageFold_invariant :
    ∀ (ops : List (List Nat × List Nat)) (es : List IndexEntry),
      (es.map IndexEntry.path).Nodup → (∀ e ∈ es, e.mode = 100644) →
      ((ops.foldl (fun es op => addToIndex es op.1 op.2) es).map IndexEntry.path).Nodup
        ∧ (∀ e ∈ ops.foldl (fun es op => addToIndex es op.1 op.2) es, e.mode = 100644)
        ∧ (ops ≠ [] → List.Sorted entryLE (ops.foldl (fun es op => addToIndex es op.1 op.2) es)) := by
  intro ops
  induction ops with
  | nil => intro es hnd hm; exact ⟨hnd, hm, fun h => absurd rfl h⟩
  | cons op ops ih =>
    intro es hnd hm
    have h1 := addToIndex_pathsNodup (p := op.1) (s := op.2) hnd
    have h2 := addToIndex_mode (p := op.1) (s := op.2) hm
    obtain ⟨ha, hb, hc⟩ := ih (addToIndex es op.1 op.2) h1 h2
    refine ⟨ha, hb, fun _ => ?_⟩
    cases hops : ops with
    | nil => simpa [hops] using addToIndex_sorted es op.1 op.2
    | cons op2 ops2 => exact hops ▸ hc (by simp [hops])

/-! Claim theorems -/

/-- C1: for every content `c`, the blob encoder digests the canonical byte
layout "blob ", decimal length of `c`, NUL, then `c` verbatim; in
particular encoding the six-byte content "hello\n" digests the bytes
"blob 6\0hello\n". -/
theorem blob_canonical_layout :
    (∀ (h comp : List Nat → List Nat) (c : List Nat),
        (BlobObject.new h comp c).hash
            = h (strBytes "blob " ++ decimalBytes c.length ++ [0] ++ c)
          ∧ (BlobObject.new h comp c).raw_content = c)
    ∧ (∀ h comp : List Nat → List Nat,
        (BlobObject.new h comp (strBytes "hello\n")).hash = h (strBytes "blob 6\x00hello\n")) := by
  refine ⟨fun h comp c => ⟨rfl, rfl⟩, fun h comp => ?_⟩
  have hb : blobFullContent (strBytes "hello\n") = strBytes "blob 6\x00hello\n" := by decide
  simp [BlobObject.new, hb]

/-- C2: the tree encoder produces "tree ", decimal byte length of the entry
body, NUL, then the concatenation over entries of (decimal mode, space,
path, NUL, raw digest bytes), in the given entry order without
re-sorting; the concrete case lists two entries in the given
(deliberately non-sorted) order with their 20 raw digest bytes. -/
theorem tree_canonical_layout :
    (∀ (h comp : List Nat → List Nat) (entries : List IndexEntry),
        (TreeObject.new h comp entries).hash
            = h (strBytes "tree "
                  ++ decimalBytes ((entries.map treeEntryBytes).flatten).length ++ [0]
                  ++ (entries.map treeEntryBytes).flatten)
          ∧ (TreeObject.new h comp entries).raw_content = (entries.map treeEntryBytes).flatten
          ∧ ∀ e : IndexEntry,
              treeEntryBytes e = decimalBytes e.mode ++ [32] ++ e.path ++ [0] ++ e.sha1)
    ∧ treeBody [⟨100644, shaTwo, strBytes "b.txt"⟩, ⟨100644, shaOne, strBytes "a.txt"⟩]
        = (strBytes "100644 b.txt" ++ [0] ++ shaTwo)
            ++ (strBytes "100644 a.txt" ++ [0] ++ shaOne) := by
  exact ⟨fun h comp entries => ⟨rfl, rfl, fun e => rfl⟩, by decide⟩

/-- C3: after any sequence of staging operations starting from the empty
index, the index entries are sorted by the derived total order on
(mode, digest, path) and no path occurs twice. -/
theorem index_sorted_and_paths_unique (ops : List (List Nat × List Nat)) :
    List.Sorted entryLE (stageList ops) ∧ (indexPaths (stageList ops)).Nodup := by
  obtain ⟨ha, _, hc⟩ := stageFold_invariant ops [] (by simp) (by simp)
  refine ⟨?_, ha⟩
  cases hops : ops with
  | nil => exact List.sorted_nil
  | cons op ops2 => exact hops ▸ hc (by simp [hops])

/-- C7: staging the same path with the same digest a second time returns
the index unchanged (same entries, hence same count, digest and mode),
because an existing entry is replaced only when the digest differs. -/
theorem staging_idempotent (es : List IndexEntry) (p s : List Nat)
    (hnd : (indexPaths es).Nodup) :
    addToIndex (addToIndex es p s) p s = addToIndex es p s
      ∧ (addToIndex (addToIndex es p s) p s).length = (addToIndex es p s).length := by
  have hS : List.Sorted entryLE (addToIndex es p s) := addToIndex_sorted es p s
  obtain ⟨hex, hall⟩ := addToIndex_path_present p s hnd
  have hself : replaceFirst p s (addToIndex es p s) = some (addToIndex es p s) :=
    replaceFirst_self hex hall
  have heq : addToIndex (addToIndex es p s) p s = addToIndex es p s := by
    rw [addToIndex_eq_some hself]
    exact hS.insertionSort_eq
  exact ⟨heq, by rw [heq]⟩

/-- Witness for C7 at a concrete index. -/
theorem staging_idempotent_witness :
    (indexPaths ([⟨100644, shaTwo, [98]⟩] : List IndexEntry)).Nodup
      ∧ addToIndex (addToIndex [⟨100644, shaTwo, [98]⟩] [97] shaOne) [97] shaOne
          = addToIndex [⟨100644, shaTwo, [98]⟩] [97] shaOne :=
  ⟨by decide, (staging_idempotent [⟨100644, shaTwo, [98]⟩] [97] shaOne (by decide)).1⟩

/-- C10: every entry that staging inserts or updates has mode 100644, so in
a staging-reachable index the (mode, digest, path) order degenerates to
the lexicographic (digest, path) order; concretely, staging path "a"
with the larger digest and then path "b" with the smaller digest lists
"b" first, although "a" precedes "b" in path order. -/
theorem staged_modes_uniform :
    (∀ ops : List (List Nat × List Nat), ∀ e ∈ stageList ops, e.mode = 100644)
    ∧ (∀ a b : IndexEntry, a.mode = b.mode →
        (entryLE a b ↔ toLex (a.sha1, a.path) ≤ toLex (b.sha1, b.path)))
    ∧ ([97] : List Nat) < [98]
    ∧ stageList [([97], shaTwo), ([98], shaOne)]
        = [⟨100644, shaOne, [98]⟩, ⟨100644, shaTwo, [97]⟩] := by
  refine ⟨?_, ?_, by decide, by decide⟩
  · intro ops e he
    exact (stageFold_invariant ops [] (by simp) (by simp)).2.1 e he
  · intro a b hm
    unfold entryLE IndexEntry.key
    rw [Prod.Lex.le_iff]
    constructor
    · rintro (hlt | ⟨_, hle⟩)
      · exact absurd (hm ▸ hlt) (lt_irrefl _)
      · exact hle
    · intro hle
      exact Or.inr ⟨hm, hle⟩

/-- Witness for C10 applying the order-degeneration conjunct at two
concrete equal-mode entries. -/
theorem staged_modes_uniform_witness :
    entryLE ⟨100644, shaOne, [98]⟩ ⟨100644, shaTwo, [97]⟩
      ↔ toLex (shaOne, ([98] : List Nat)) ≤ toLex (shaTwo, ([97] : List Nat)) :=
  staged_modes_uniform.2.1 ⟨100644, shaOne, [98]⟩ ⟨100644, shaTwo, [97]⟩ rfl

theorem splitAtByte_first (b : Nat) :
    ∀ (pre post : List Nat), b ∉ pre → splitAtByte b (pre ++ b :: post) = some (pre, post) := by
  intro pre
  induction pre with
  | nil => intro post _; simp [splitAtByte]
  | cons c rest ih =>
    intro post hb
    have hcb : ¬ c = b := fun h => hb (h ▸ List.mem_cons_self c rest)
    rw [List.cons_append, splitAtByte, if_neg hcb,
      ih post (fun h => hb (List.mem_cons_of_mem _ h))]
    rfl

theorem catTreeEntriesAux_truncated (fuel : Nat) (modeB pathB rest : List Nat)
    (h32 : 32 ∉ modeB) (hm : utf8Valid modeB = true)
    (h0 : 0 ∉ pathB) (hp : utf8Valid pathB = true)
    (hlen : rest.length < 20) :
    catTreeEntriesAux (fuel + 1) (modeB ++ 32 :: (pathB ++ 0 :: rest))
      = .error .truncatedSha := by
  have h1 := splitAtByte_first 32 modeB (pathB ++ 0 :: rest) h32
  have h2 := splitAtByte_first 0 pathB rest h0
  cases modeB with
  | nil =>
    simp only [List.nil_append] at h1 ⊢
    simp [catTreeEntriesAux, h1, h2, hm, hp, hlen]
  | cons m ms =>
    simp only [List.cons_append] at h1 ⊢
    simp [catTreeEntriesAux, h1, h2, hm, hp, hlen]

theorem catTreeEntries_truncated (modeB pathB rest : List Nat)
    (h32 : 32 ∉ modeB) (hm : utf8Valid modeB = true)
    (h0 : 0 ∉ pathB) (hp : utf8Valid pathB = true)
    (hlen : rest.length < 20) :
    catTreeEntries (modeB ++ 32 :: (pathB ++ 0 :: rest)) = .error .truncatedSha := by
  have hl : (modeB ++ 32 :: (pathB ++ 0 :: rest)).length
      = (modeB.length + (pathB ++ 0 :: rest).length) + 1 := by
    simp [List.length_append]
    omega
  rw [catTreeEntries, hl]
  exact catTreeEntriesAux_truncated _ _ _ _ h32 hm h0 hp hlen

/-- C4 counterexample: the empty decompressed buffer contains no space byte,
and the parse panics (an `unwrap` of `None`, `src/main.rs:380`) rather than
failing with a corrupt-object error. -/
theorem parse_missing_delimiter_panics :
    parseObject hZero compZero [] [] [] = .error .panic
      ∧ GitError.panic ≠ GitError.unknownObjectType
      ∧ GitError.panic ≠ GitError.truncatedSha :=
  ⟨rfl, by decide, by decide⟩

/-- C4 amended: with both delimiters present, an unrecognized type tag
fails with the corrupt-object error `unknownObjectType`, and a tree entry
whose 20-byte digest would run past the buffer end fails with the
corrupt-object error `truncatedSha`; but a buffer lacking the space or the
NUL delimiter makes the parse panic (unwrap on None) instead of returning
an error. -/
theorem parse_object_error_behaviour :
    (∀ (h comp : List Nat → List Nat) (index : List IndexEntry)
        (compressed d : List Nat) (sp nl : Nat),
        d.findIdx? (fun b => b == 32) = some sp →
        d.findIdx? (fun b => b == 0) = some nl →
        utf8Valid (d.take sp) = true →
        d.take sp ≠ strBytes "blob" →
        d.take sp ≠ strBytes "tree" →
        d.take sp ≠ strBytes "commit" →
        parseObject h comp index compressed d = .error .unknownObjectType)
    ∧ (∀ (h comp : List Nat → List Nat) (index : List IndexEntry) (compressed d : List Nat),
        d.findIdx? (fun b => b == 32) = none →
        parseObject h comp index compressed d = .error .panic)
    ∧ (∀ (h comp : List Nat → List Nat) (index : List IndexEntry)
        (compressed d : List Nat) (sp : Nat),
        d.findIdx? (fun b => b == 32) = some sp →
        d.findIdx? (fun b => b == 0) = none →
        parseObject h comp index compressed d = .error .panic)
    ∧ (∀ modeB pathB rest : List Nat,
        32 ∉ modeB → utf8Valid modeB = true →
        0 ∉ pathB → utf8Valid pathB = true →
        rest.length < 20 →
        catTreeEntries (modeB ++ 32 :: (pathB ++ 0 :: rest)) = .error .truncatedSha) := by
  refine ⟨?_, ?_, ?_, catTreeEntries_truncated⟩
  · intro h comp index compressed d sp nl hsp hnl hu hb ht hc
    simp [parseObject, hsp, hnl, hu, hb, ht, hc]
  · intro h comp index compressed d hsp
    simp [parseObject, hsp]
  · intro h comp index compressed d sp hsp hnl
    simp [parseObject, hsp, hnl]

/-- Witness for the amended C4 at concrete buffers. -/
theorem parse_object_error_behaviour_witness :
    parseObject hZero compZero [] [] (strBytes "bad " ++ [0]) = .error .unknownObjectType
      ∧ parseObject hZero compZero [] [] (strBytes "bad") = .error .panic
      ∧ parseObject hZero compZero [] [] (strBytes "bad x") = .error .panic
      ∧ catTreeEntries (strBytes "100644" ++ 32 :: (strBytes "a" ++ 0 :: []))
          = .error .truncatedSha := by
  refine ⟨?_, ?_, ?_, ?_⟩
  · exact parse_object_error_behaviour.1 hZero compZero [] [] _ 3 4
      (by decide) (by decide) (by decide) (by decide) (by decide) (by decide)
  · exact parse_object_error_behaviour.2.1 hZero compZero [] [] _ (by decide)
  · exact parse_object_error_behaviour.2.2.1 hZero compZero [] [] _ 3 (by decide) (by decide)
  · exact parse_object_error_behaviour.2.2.2 (strBytes "100644") (strBytes "a") []
      (by decide) (by decide) (by decide) (by decide) (by decide)

/-- C5: a stored object whose decompressed type tag is "tree" reads back as
a tree rebuilt from the staging index current at read time, regardless of
the stored payload; reading the same stored payload under two different
indices yields two different trees. -/
theorem tree_read_uses_live_index :
    (∀ (h comp : List Nat → List Nat) (decomp : List Nat → Option (List Nat))
        (index : List IndexEntry) (store : Store) (addr compressed d : List Nat) (sp nl : Nat),
        addr.length = 40 →
        store addr = some compressed →
        decomp compressed = some d →
        d.findIdx? (fun b => b == 32) = some sp →
        d.findIdx? (fun b => b == 0) = some nl →
        d.take sp = strBytes "tree" →
        read_object h comp decomp index store true addr
          = .ok (.tree (TreeObject.new h comp index)))
    ∧ read_object hZero compZero decompId [] storeWithTree true addrA
        = .ok (.tree (TreeObject.new hZero compZero []))
    ∧ read_object hZero compZero decompId [⟨100644, shaOne, [97]⟩] storeWithTree true addrA
        = .ok (.tree (TreeObject.new hZero compZero [⟨100644, shaOne, [97]⟩]))
    ∧ TreeObject.new hZero compZero [] ≠ TreeObject.new hZero compZero [⟨100644, shaOne, [97]⟩] := by
  refine ⟨?_, rfl, rfl, by decide⟩
  intro h comp decomp index store addr compressed d sp nl hlen hst hdec hsp hnl htag
  have hu : utf8Valid (strBytes "tree") = true := by decide
  have h1 : strBytes "tree" ≠ strBytes "blob" := by decide
  simp [read_object, parseObject, hlen, hst, hdec, hsp, hnl, htag, hu, h1]

/-- Witness for C5 applying the general statement at a concrete store,
payload and index. -/
theorem tree_read_uses_live_index_witness :
    read_object hZero compZero decompId [⟨100644, shaTwo, [98]⟩] storeWithTree true addrA
      = .ok (.tree (TreeObject.new hZero compZero [⟨100644, shaTwo, [98]⟩])) :=
  tree_read_uses_live_index.1 hZero compZero decompId [⟨100644, shaTwo, [98]⟩]
    storeWithTree addrA treePayload treePayload 4 6
    (by decide) (by decide) rfl (by decide) (by decide) (by decide)

/-- C6 counterexample: forty letters z form an address that is not forty
hexadecimal characters, yet `read_object` reports `objectNotFound` — only
the length is validated (`src/main.rs:459`), not hex-ness — where the claim
requires `invalidAddress`. -/
theorem address_validation_counterexample :
    (List.replicate 40 122).all isHexDigitByte = false
      ∧ read_object hZero compZero decompId [] emptyStore true (List.replicate 40 122)
          = .error .objectNotFound
      ∧ GitError.objectNotFound ≠ GitError.invalidAddress :=
  ⟨by decide, rfl, by decide⟩

/-- C6 amended: `read_object` fails with `invalidAddress` exactly when the
address length differs from 40 (hex validity is not checked there), and
with `objectNotFound` on any 40-character address with no stored object. -/
theorem read_object_address_validation :
    ∀ (h comp : List Nat → List Nat) (decomp : List Nat → Option (List Nat))
      (index : List IndexEntry) (store : Store) (addr : List Nat),
      (addr.length ≠ 40 →
        read_object h comp decomp index store true addr = .error .invalidAddress)
      ∧ (addr.length = 40 → store addr = none →
        read_object h comp decomp index store true addr = .error .objectNotFound) := by
  intro h comp decomp index store addr
  constructor
  · intro hlen
    simp [read_object, hlen]
  · intro hlen hst
    simp [read_object, hlen, hst]

/-- Witness for the amended C6 at concrete addresses. -/
theorem read_object_address_validation_witness :
    read_object hZero compZero decompId [] emptyStore true [97] = .error .invalidAddress
      ∧ read_object hZero compZero decompId [] emptyStore true addrA
          = .error .objectNotFound :=
  ⟨(read_object_address_validation hZero compZero decompId [] emptyStore [97]).1 (by decide),
   (read_object_address_validation hZero compZero decompId [] emptyStore addrA).2 (by decide) rfl⟩

theorem hexEncode_length : ∀ p : List Nat, (hexEncode p).length = 2 * p.length := by
  intro p
  induction p with
  | nil => rfl
  | cons b t ih =>
    simp only [hexEncode, List.map_cons, List.flatten_cons, List.length_append,
      List.length_cons, List.length_nil] at ih ⊢
    omega

/-- C8: `commit_tree` validates the tree reference, and the parent
reference when one is supplied, before building and writing the commit
object; in either failure case it returns `invalidTreeReference` /
`invalidParentReference` with the store unchanged — no object is
written. -/
theorem commit_tree_checks_before_write :
    ∀ (h comp : List Nat → List Nat) (store : Store) (msg treeHash p c : List Nat) (ts off : Int),
      (treeHash.length = 40 → store treeHash = none →
        ∀ parent, commit_tree h comp store true msg treeHash parent ts off
          = (.error .invalidTreeReference, store))
      ∧ (treeHash.length = 40 → store treeHash = some c → p.length = 20 →
          store (hexEncode p) = none →
          commit_tree h comp store true msg treeHash (some p) ts off
            = (.error .invalidParentReference, store)) := by
  intro h comp store msg treeHash p c ts off
  constructor
  · intro hlen hst parent
    simp [commit_tree, hlen, hst]
  · intro hlen hst hp hpe
    have hhex : (hexEncode p).length = 40 := by rw [hexEncode_length, hp]
    simp [commit_tree, hlen, hst, hhex, hpe]

/-- Witness for C8: a missing tree reference and a missing parent
reference, each leaving the concrete store untouched. -/
theorem commit_tree_checks_before_write_witness :
    commit_tree hZero compZero emptyStore true [109] addrA none 0 0
        = (.error .invalidTreeReference, emptyStore)
      ∧ commit_tree hZero compZero storeWithTree true [109] addrA
          (some (List.replicate 20 255)) 0 0
        = (.error .invalidParentReference, storeWithTree) :=
  ⟨(commit_tree_checks_before_write hZero compZero emptyStore [109] addrA [] [] 0 0).1
      (by decide) rfl none,
   (commit_tree_checks_before_write hZero compZero storeWithTree [109] addrA
      (List.replicate 20 255) treePayload 0 0).2
      (by decide) (by decide) (by decide) (by decide)⟩

end MiniGit
